import Mathlib

/-!
Shallow embedding of the Bible_RAG retrieval-fusion query pipeline
(`backend/app/services/fusion.py`, `context_builder.py`,
`retrievers/graph_retriever.py`, `rag_pipeline.py`,
`api/v1/endpoints/query.py`, `models/schemas/query.py`)
together with proofs of the specified properties.

Python floats are modelled as exact rationals (`ℚ`), Python ints as `Int`
(ids) or `ℕ` (counts, ranks), Python strings as `String`, and Python dicts
keyed in insertion order as association lists in first-encounter order,
matching CPython's ordered-dict semantics.  Python's stable `sorted` is
modelled by a stable insertion sort.
-/

namespace BibleRAG

/-! ## Definitions: the shallow embedding of the pipeline -/

/-- Configuration constants from `app/core/config.py`. -/
def RRF_K : ℕ := 60

/-- `settings.MAX_RETRIEVE_RESULTS`. -/
def MAX_RETRIEVE_RESULTS : ℕ := 20

/-- `settings.MAX_CONTEXT_TOKENS`. -/
def MAX_CONTEXT_TOKENS : ℕ := 4000

/-- `settings.TOP_K_PERICOPES`. -/
def TOP_K_PERICOPES : ℕ := 5

/-- A retrieval candidate as consumed by `RRFFusion.fuse`: any retriever
result object carrying the payload attributes the fusion engine copies. -/
structure Candidate where
  id : Int
  book_id : Int
  book_name : String
  chapter_start : Int
  verse_start : Int
  chapter_end : Int
  verse_end : Int
  title : String
  text : String
  score : ℚ
deriving DecidableEq

/-- `FusedResult` dataclass from `fusion.py`. -/
structure FusedResult where
  id : Int
  book_id : Int
  book_name : String
  chapter_start : Int
  verse_start : Int
  chapter_end : Int
  verse_end : Int
  title : String
  text : String
  score : ℚ
  sources : List String
deriving DecidableEq

/-- One entry of the fusion accumulator: models the triple of dicts
`doc_scores` / `doc_data` / `doc_sources` (all keyed by `doc_id`, all in
first-encounter insertion order) from `RRFFusion.fuse`. -/
structure FuseEntry where
  id : Int
  data : Candidate
  score : ℚ
  sources : List String
deriving DecidableEq

/-- The RRF term `1.0 / (self.k + rank)` added for one occurrence. -/
def rrfTerm (k : ℕ) (rank : ℕ) : ℚ := 1 / ((k : ℚ) + (rank : ℚ))

/-- Process one candidate at a given 1-indexed rank of a given source:
`doc_scores[doc_id] += rrf_score`, first-occurrence payload retention, and
idempotent source-name tracking. A fresh id is appended at the tail,
matching dict insertion order. -/
def addOccurrence (k : ℕ) (sourceName : String) (rank : ℕ) (c : Candidate) :
    List FuseEntry → List FuseEntry
  | [] => [⟨c.id, c, rrfTerm k rank, [sourceName]⟩]
  | e :: es =>
    if e.id = c.id then
      { e with
        score := e.score + rrfTerm k rank,
        sources := if sourceName ∈ e.sources then e.sources
                   else e.sources ++ [sourceName] } :: es
    else
      e :: addOccurrence k sourceName rank c es

/-- The inner loop `for rank, result in enumerate(results, start=1)`. -/
def processSource (k : ℕ) (sourceName : String) :
    ℕ → List Candidate → List FuseEntry → List FuseEntry
  | _, [], entries => entries
  | rank, c :: cs, entries =>
    processSource k sourceName (rank + 1) cs (addOccurrence k sourceName rank c entries)

/-- The outer loop `for source_name, results in result_lists`. -/
def fuseEntries (k : ℕ) (resultLists : List (String × List Candidate)) :
    List FuseEntry :=
  resultLists.foldl (fun entries sl => processSource k sl.1 1 sl.2 entries) []

/-- Insert an element into a score-descending list, after every element of
greater-or-equal score: combined with a left fold this reproduces the
result of Python's stable `sorted(..., key=score, reverse=True)`. -/
def insertDescBy {α : Type} (f : α → ℚ) (x : α) : List α → List α
  | [] => [x]
  | y :: ys => if f y < f x then x :: y :: ys else y :: insertDescBy f x ys

/-- Stable sort, descending by `f`, of a list (models Python's stable
`sorted(l, key=f, reverse=True)`). -/
def sortDescBy {α : Type} (f : α → ℚ) (l : List α) : List α :=
  l.foldl (fun acc x => insertDescBy f x acc) []

/-- Build the final `FusedResult` from an accumulator entry, copying the
payload stored at the first occurrence. -/
def toFusedResult (e : FuseEntry) : FusedResult :=
  { id := e.id
    book_id := e.data.book_id
    book_name := e.data.book_name
    chapter_start := e.data.chapter_start
    verse_start := e.data.verse_start
    chapter_end := e.data.chapter_end
    verse_end := e.data.verse_end
    title := e.data.title
    text := e.data.text
    score := e.score
    sources := e.sources }

/-- `RRFFusion.fuse`: accumulate RRF scores, then sort by aggregate score
descending (Python `sorted` over the insertion-ordered dict items). -/
def fuse (k : ℕ) (resultLists : List (String × List Candidate)) :
    List FusedResult :=
  (sortDescBy FuseEntry.score (fuseEntries k resultLists)).map toFusedResult

/-- 1-indexed ranks (starting from `rank`) at which `id` occurs in a list. -/
def ranksAux (id : Int) : ℕ → List Candidate → List ℕ
  | _, [] => []
  | rank, c :: cs =>
    if c.id = id then rank :: ranksAux id (rank + 1) cs
    else ranksAux id (rank + 1) cs

/-- All 1-indexed ranks at which `id` occurs in one source's ranked list. -/
def ranksOf (id : Int) (rs : List Candidate) : List ℕ := ranksAux id 1 rs

/-- The total RRF contribution of one source to `id`. -/
def sourceRRF (k : ℕ) (id : Int) (rs : List Candidate) : ℚ :=
  ((ranksOf id rs).map (rrfTerm k)).sum

/-- The total RRF score of `id` over all sources, as the spec words it:
the sum of `1/(k+r)` over every rank `r` at which any source placed `id`. -/
def totalRRF (k : ℕ) (resultLists : List (String × List Candidate)) (id : Int) : ℚ :=
  (resultLists.map (fun sl => sourceRRF k id sl.2)).sum

/-- Score recorded for `id` in the accumulator (0 when absent). -/
def entryScore (id : Int) : List FuseEntry → ℚ
  | [] => 0
  | e :: es => if e.id = id then e.score else entryScore id es

/-- Auxiliary RRF sum starting from an arbitrary rank. -/
def sourceRRFAux (k : ℕ) (id : Int) (rank : ℕ) (rs : List Candidate) : ℚ :=
  ((ranksAux id rank rs).map (rrfTerm k)).sum

/-- Deduplication keeping first occurrences, relative to an initial set of
already-seen ids: the key order a Python dict ends up with. -/
def dedupSeen (seen : List Int) : List Int → List Int
  | [] => []
  | x :: xs => if x ∈ seen then dedupSeen seen xs else x :: dedupSeen (x :: seen) xs

/-- All candidate ids of all input lists, in source order then rank order. -/
def allIds (resultLists : List (String × List Candidate)) : List Int :=
  (resultLists.map (fun sl => sl.2.map Candidate.id)).flatten

/-- Descending order by `f`. -/
def SortedDown {α : Type} (f : α → ℚ) (l : List α) : Prop :=
  l.Pairwise (fun a b => f b ≤ f a)

/-- A small concrete candidate with a given id. -/
def demoCand (i : Int) : Candidate :=
  { id := i, book_id := 1, book_name := "Gen", chapter_start := 1,
    verse_start := 1, chapter_end := 1, verse_end := 2, title := "t",
    text := "x", score := 1 }

/-- Scenario B inputs: dense ranks A,B,C; sparse ranks B,A. -/
def demoLists : List (String × List Candidate) :=
  [("dense", [demoCand 1, demoCand 2, demoCand 3]),
   ("sparse", [demoCand 2, demoCand 1])]

/-- Second fusion input for the C5 witness: document 1 loses its sparse
appearance but keeps rank 1 in the dense list. -/
def demoListsFewer : List (String × List Candidate) :=
  [("dense", [demoCand 1, demoCand 2, demoCand 3]),
   ("sparse", [demoCand 2])]

/-- `ContextBuilder._format_reference`. -/
def formatReference (r : FusedResult) : String :=
  if r.chapter_start = r.chapter_end then
    if r.verse_start = r.verse_end then
      r.book_name ++ " " ++ toString r.chapter_start ++ ":" ++
        toString r.verse_start
    else
      r.book_name ++ " " ++ toString r.chapter_start ++ ":" ++
        toString r.verse_start ++ "-" ++ toString r.verse_end
  else
    r.book_name ++ " " ++ toString r.chapter_start ++ ":" ++
      toString r.verse_start ++ "-" ++ toString r.chapter_end ++ ":" ++
      toString r.verse_end

/-- `ContextBuilder._format_pericope`: the fixed `"\n".join` of the four
lines `["### " + title, "**" + reference + "**", "", text]`. -/
def formatPericope (r : FusedResult) : String :=
  "### " ++ r.title ++ "\n" ++ "**" ++ formatReference r ++ "**" ++
    "\n" ++ "\n" ++ r.text

/-- One metadata dict appended per included pericope. -/
structure SegmentMeta where
  id : Int
  book : String
  reference : String
  title : String
  score : ℚ
  sources : List String
deriving DecidableEq

def mkSegmentMeta (r : FusedResult) : SegmentMeta :=
  { id := r.id, book := r.book_name, reference := formatReference r,
    title := r.title, score := r.score, sources := r.sources }

/-- The fixed context delimiter. -/
def contextSep : String := "\n\n---\n\n"

/-- Python's `"\n\n---\n\n".join(parts)`. -/
def joinParts : List String → String
  | [] => ""
  | [p] => p
  | p :: ps => p ++ contextSep ++ joinParts ps

/-- The message returned when the fused list is empty. -/
def noResultsMsg : String := "沒有找到相關經文。"

/-- The `for result in results` loop of
`ContextBuilder.build_with_metadata`, with its running character total and
its `break` when a further (non-first) segment would exceed the budget. -/
def buildLoop (maxChars : ℕ) :
    List FusedResult → List String → List SegmentMeta → ℕ →
      List String × List SegmentMeta
  | [], parts, meta, _ => (parts, meta)
  | r :: rs, parts, meta, total =>
    let part := formatPericope r
    if total + part.length > maxChars ∧ parts ≠ [] then (parts, meta)
    else buildLoop maxChars rs (parts ++ [part]) (meta ++ [mkSegmentMeta r])
      (total + part.length)

/-- `ContextBuilder.build_with_metadata` with an explicit token budget
(`int(max_tokens * 1.5)` becomes `3 * maxTokens / 2` in ℕ). -/
def build_with_metadata (maxTokens : ℕ) (results : List FusedResult) :
    String × List SegmentMeta :=
  if results = [] then (noResultsMsg, [])
  else
    let pm := buildLoop (3 * maxTokens / 2) results [] [] 0
    (joinParts pm.1, pm.2)

/-- Greedy budget-constrained prefix, starting from a running total. -/
def takeFit (maxChars : ℕ) : ℕ → List FusedResult → List FusedResult
  | _, [] => []
  | total, r :: rs =>
    let part := formatPericope r
    if total + part.length > maxChars then []
    else r :: takeFit maxChars (total + part.length) rs

/-- Total character count of a list of parts. -/
def sumLens (parts : List String) : ℕ := (parts.map String.length).sum

/-- A minimal fused segment used to exhibit the context-budget slack left
by the joining delimiters. -/
def cexSeg (i : Int) : FusedResult :=
  { id := i, book_id := 1, book_name := "B", chapter_start := 1,
    verse_start := 1, chapter_end := 1, verse_end := 1, title := "",
    text := "", score := 1 / 61, sources := ["dense"] }

/-- A `GraphRetrievalResult`: the fused payload plus the `graph_context`
dict (its `"type"` tag and `"entities"` list, the only keys the pipeline
reads back). -/
structure GCand where
  cand : Candidate
  ctxType : String
  ctxEntities : List String
deriving DecidableEq

/-- The `seen_ids` deduplication loop of `GraphRetriever._retrieve_general`:
keep the first occurrence of each pericope id. -/
def dedupById (seen : List Int) : List GCand → List GCand
  | [] => []
  | r :: rs =>
    if r.cand.id ∈ seen then dedupById seen rs
    else r :: dedupById (r.cand.id :: seen) rs

/-- `GraphRetriever._retrieve_general`, over abstract scoped strategies
(the three Cypher-backed scoped retrievals are external backends): split
`k_per_type = max(top_k // 3, 5)`, merge, sort by score descending
(stable), deduplicate by pericope id, truncate to `top_k`. -/
def retrieveGeneral (person topic event : List String → ℕ → List GCand)
    (keywords : List String) (topK : ℕ) : List GCand :=
  let kPerType := max (topK / 3) 5
  let allResults := person keywords kPerType ++ topic keywords kPerType ++
    event keywords kPerType
  (dedupById [] (sortDescBy (fun g => g.cand.score) allResults)).take topK

/-- The general strategy exactly as claim C4 words it — an even split of
`k/3` per scoped strategy, with no lower floor.  Defined from the claim's
words for comparison with `retrieveGeneral`; they disagree. -/
def retrieveGeneralEvenSplit (person topic event : List String → ℕ → List GCand)
    (keywords : List String) (topK : ℕ) : List GCand :=
  let kPerType := topK / 3
  let allResults := person keywords kPerType ++ topic keywords kPerType ++
    event keywords kPerType
  (dedupById [] (sortDescBy (fun g => g.cand.score) allResults)).take topK

/-- A candidate whose id records a number. -/
def probeCand (n : ℕ) : Candidate :=
  { id := (n : Int), book_id := 0, book_name := "", chapter_start := 0,
    verse_start := 0, chapter_end := 0, verse_end := 0, title := "", text := "",
    score := 1 }

/-- An instrumenting scoped strategy: returns one result whose id records
the `k` it was invoked with. -/
def probeFn : List String → ℕ → List GCand :=
  fun _ n => [⟨probeCand n, "person", []⟩]

/-- A scoped strategy returning nothing. -/
def nilFn : List String → ℕ → List GCand := fun _ _ => []

/-- Result of one fault-isolated retriever call: the `try`/`except` around
each branch turns an exception into an empty result list. -/
def outcomeList (o : Except Unit (List Candidate)) : List Candidate :=
  match o with
  | .ok r => r
  | .error _ => []

/-- Python's `mode.upper()` for the ASCII mode strings. -/
def pyUpper (s : String) : String := ⟨s.data.map Char.toUpper⟩

/-- The environment a single query execution runs against: the outcome of
each remote backend, all treated as opaque data. -/
structure PipelineEnv where
  denseOutcome : Except Unit (List Candidate)
  sparseOutcome : Except Unit (List Candidate)
  graphAvailable : Bool
  classifyReply : String
  extractReply : Except Unit String
  personFn : List String → ℕ → List GCand
  topicFn : List String → ℕ → List GCand
  eventFn : List String → ℕ → List GCand
  generateFn : String → String → String → String

/-- Parse the comma-separated entity reply:
`[e.strip() for e in response.strip().split(",")]` filtered to non-empty. -/
def parseEntities (reply : String) : List String :=
  ((reply.trim.splitOn ",").map String.trim).filter (fun e => e ≠ "")

/-- `GraphRetriever._extract_entities_from_query` with an LLM client:
one LLM call; on failure fall back to the whole query as the entity list.
The second component counts extraction LLM calls. -/
def extractEntities (env : PipelineEnv) (query : String) : List String × ℕ :=
  match env.extractReply with
  | .ok reply => (parseEntities reply, 1)
  | .error _ => ([query], 1)

/-- `GraphRetriever.retrieve`: return empty immediately when Neo4j is
unavailable; otherwise extract entities and dispatch on the query type. -/
def graphRetrieve (env : PipelineEnv) (query : String) (queryType : String)
    (topK : ℕ) : List GCand × ℕ :=
  if env.graphAvailable then
    let ec := extractEntities env query
    if ec.1 = [] then ([], ec.2)
    else if queryType = "PERSON_QUESTION" then (env.personFn ec.1 topK, ec.2)
    else if queryType = "TOPIC_QUESTION" then (env.topicFn ec.1 topK, ec.2)
    else if queryType = "EVENT_QUESTION" then (env.eventFn ec.1 topK, ec.2)
    else (retrieveGeneral env.personFn env.topicFn env.eventFn ec.1 topK, ec.2)
  else ([], 0)

/-- Insertion-ordered string deduplication (Python `set` contents,
modelled deterministically). -/
def dedupStr (seen : List String) : List String → List String
  | [] => []
  | x :: xs => if x ∈ seen then dedupStr seen xs else x :: dedupStr (x :: seen) xs

structure GraphContextData where
  topics : List String
  persons : List String
deriving DecidableEq

/-- `RAGPipeline._build_graph_context`: collect entity names from graph
results by context type, deduplicate, cap at 10 each. -/
def buildGraphContext (results : List GCand) : GraphContextData :=
  { topics := (dedupStr []
      ((results.filter (fun r => r.ctxType == "topic")).map GCand.ctxEntities).flatten).take 10
    persons := (dedupStr []
      ((results.filter (fun r => r.ctxType == "person")).map GCand.ctxEntities).flatten).take 10 }

/-- `GraphContext` response schema. -/
structure GraphContext where
  related_topics : List String
  related_persons : List String
deriving DecidableEq

/-- `PericopeSegment` response schema (the `type` field is `segType`). -/
structure PericopeSegment where
  id : Int
  segType : String
  book : String
  chapter_start : Int
  verse_start : Int
  chapter_end : Int
  verse_end : Int
  title : String
  text_excerpt : String
  relevance_score : ℚ
deriving DecidableEq

/-- The `options` dict handed to `RAGPipeline.execute` (keys may be
absent; `options.get` supplies the pipeline-side defaults). -/
structure PipelineOptions where
  maxResultsOpt : Option ℕ
  includeGraphOpt : Option Bool
deriving DecidableEq

/-- The fixed apology answer used when no evidence was found. -/
def apology : String :=
  "抱歉，我找不到與您問題相關的聖經經文。請嘗試用不同的方式描述您的問題。"

/-- `result.text[:200] + "..." if len(result.text) > 200 else result.text`. -/
def textExcerpt (t : String) : String :=
  if 200 < t.length then t.take 200 ++ "..." else t

def mkSegment (r : FusedResult) : PericopeSegment :=
  { id := r.id, segType := "pericope", book := r.book_name,
    chapter_start := r.chapter_start, verse_start := r.verse_start,
    chapter_end := r.chapter_end, verse_end := r.verse_end, title := r.title,
    text_excerpt := textExcerpt r.text,
    relevance_score := min 1 (r.score * 10) }

/-- Step 1 of `RAGPipeline.execute`: classification tag. -/
def pipeQueryType (env : PipelineEnv) (mode : String) : String :=
  if mode = "auto" then env.classifyReply else pyUpper mode

/-- Number of classification LLM calls made by step 1. -/
def pipeClassifyCalls (mode : String) : ℕ := if mode = "auto" then 1 else 0

def pipeDense (env : PipelineEnv) : List Candidate := outcomeList env.denseOutcome

def pipeSparse (env : PipelineEnv) : List Candidate := outcomeList env.sparseOutcome

/-- The guard `self.graph_retriever and include_graph and
Neo4jClient.is_available()` (the pipeline is constructed with
`use_graph=True` by the endpoint, so `self.graph_retriever` is present;
note `options.get("include_graph", True)` defaults to `True` here). -/
def pipeGraphOn (env : PipelineEnv) (opts : PipelineOptions) : Bool :=
  opts.includeGraphOpt.getD true && env.graphAvailable

/-- Graph results and extraction-call count for one execution. -/
def pipeGraphPair (env : PipelineEnv) (query mode : String)
    (opts : PipelineOptions) : List GCand × ℕ :=
  if pipeGraphOn env opts then
    graphRetrieve env query (pipeQueryType env mode) MAX_RETRIEVE_RESULTS
  else ([], 0)

/-- The `used_retrievers` list, appended to in dense, sparse, graph order,
each only when that source returned at least one result. -/
def mkUsed (dense sparse : List Candidate) (graph : List GCand) : List String :=
  (if dense ≠ [] then ["dense"] else []) ++
  (if sparse ≠ [] then ["sparse"] else []) ++
  (if graph ≠ [] then ["graph"] else [])

/-- The `result_lists` handed to fusion: exactly the non-empty sources. -/
def mkResultLists (dense sparse : List Candidate) (graph : List GCand) :
    List (String × List Candidate) :=
  (if dense ≠ [] then [("dense", dense)] else []) ++
  (if sparse ≠ [] then [("sparse", sparse)] else []) ++
  (if graph ≠ [] then [("graph", graph.map GCand.cand)] else [])

def pipeResultLists (env : PipelineEnv) (query mode : String)
    (opts : PipelineOptions) : List (String × List Candidate) :=
  mkResultLists (pipeDense env) (pipeSparse env) (pipeGraphPair env query mode opts).1

/-- Steps 3–4: fuse the non-empty sources (skipping fusion entirely when
all are empty) and truncate to `max_results`. -/
def pipeFusedTrunc (env : PipelineEnv) (query mode : String)
    (opts : PipelineOptions) : List FusedResult :=
  (if pipeResultLists env query mode opts = [] then []
   else fuse RRF_K (pipeResultLists env query mode opts)).take
    (opts.maxResultsOpt.getD TOP_K_PERICOPES)

/-- The observable outcome of one `RAGPipeline.execute` run, together with
instrumentation fields recording which backend calls were made. -/
structure ExecResult where
  answer : String
  segments : List PericopeSegment
  queryType : String
  usedRetrievers : List String
  graphContext : Option GraphContext
  classifyCalls : ℕ
  extractCalls : ℕ
  generateCalls : ℕ
  graphInvoked : Bool
  fusionInputs : List (String × List Candidate)
  fusedTruncated : List FusedResult
deriving DecidableEq

/-- `RAGPipeline.execute` (wall-clock timing omitted: it is the one
nondeterministic response field). -/
def execute (env : PipelineEnv) (query mode : String)
    (opts : PipelineOptions) : ExecResult :=
  let graphResults := (pipeGraphPair env query mode opts).1
  let fusedTrunc := pipeFusedTrunc env query mode opts
  let gcd := if graphResults ≠ [] then buildGraphContext graphResults
    else ⟨[], []⟩
  { answer :=
      if fusedTrunc ≠ [] then
        env.generateFn query
          (build_with_metadata MAX_CONTEXT_TOKENS fusedTrunc).1
          (pipeQueryType env mode)
      else apology
    segments := fusedTrunc.map mkSegment
    queryType := pipeQueryType env mode
    usedRetrievers := mkUsed (pipeDense env) (pipeSparse env) graphResults
    graphContext :=
      if gcd.topics ≠ [] ∨ gcd.persons ≠ [] then
        some ⟨gcd.topics, gcd.persons⟩
      else none
    classifyCalls := pipeClassifyCalls mode
    extractCalls := (pipeGraphPair env query mode opts).2
    generateCalls := if fusedTrunc ≠ [] then 1 else 0
    graphInvoked := pipeGraphOn env opts
    fusionInputs := pipeResultLists env query mode opts
    fusedTruncated := fusedTrunc }

/-- The request-level `options` object (`QueryOptions` Pydantic schema):
absent fields take the schema defaults `max_results=5`,
`include_graph=False`. -/
structure QueryOptionsReq where
  max_results : Option ℕ
  include_graph : Option Bool
deriving DecidableEq

/-- The `/query` endpoint: validate the request, then call the pipeline
with an options dict that always carries both keys, filled from the
schema-defaulted request options. -/
def endpointRun (env : PipelineEnv) (query mode : String)
    (o : QueryOptionsReq) : ExecResult :=
  execute env query mode
    ⟨some (o.max_results.getD 5), some (o.include_graph.getD false)⟩

/-- A small environment with both text sources succeeding and the graph
backend unavailable. -/
def demoEnv : PipelineEnv :=
  { denseOutcome := .ok [demoCand 1, demoCand 2, demoCand 3]
    sparseOutcome := .ok [demoCand 2, demoCand 1]
    graphAvailable := false
    classifyReply := "GENERAL_BIBLE_QUESTION"
    extractReply := .ok "a, b"
    personFn := nilFn
    topicFn := nilFn
    eventFn := nilFn
    generateFn := fun _ _ _ => "answer" }

/-- An environment in which every retrieval source fails or is absent. -/
def emptyEnv : PipelineEnv :=
  { denseOutcome := .error ()
    sparseOutcome := .error ()
    graphAvailable := false
    classifyReply := "GENERAL_BIBLE_QUESTION"
    extractReply := .error ()
    personFn := nilFn
    topicFn := nilFn
    eventFn := nilFn
    generateFn := fun _ _ _ => "answer" }

/-! ## Theorems -/

/-! ### Accumulator lemmas -/

theorem entryScore_addOccurrence (k : ℕ) (s : String) (r : ℕ) (c : Candidate)
    (entries : List FuseEntry) (id : Int) :
    entryScore id (addOccurrence k s r c entries) =
      entryScore id entries + (if c.id = id then rrfTerm k r else 0) := by
  induction entries with
  | nil =>
    by_cases h : c.id = id <;> simp [addOccurrence, entryScore, h]
  | cons e es ih =>
    by_cases he : e.id = c.id
    · by_cases hid : e.id = id
      · have hc : c.id = id := he ▸ hid
        simp [addOccurrence, entryScore, he, hid, hc]
      · have hc : ¬ c.id = id := fun h => hid (he.trans h)
        simp [addOccurrence, entryScore, he, hid, hc]
    · by_cases hid : e.id = id
      · have hc : ¬ c.id = id := fun h => he (hid.trans h.symm)
        have hid2 : ¬ id = c.id := fun h => hc h.symm
        simp [addOccurrence, entryScore, he, hid, hc, hid2]
      · simp [addOccurrence, entryScore, he, hid, ih]

theorem sourceRRFAux_cons (k : ℕ) (id : Int) (rank : ℕ) (c : Candidate)
    (cs : List Candidate) :
    sourceRRFAux k id rank (c :: cs) =
      (if c.id = id then rrfTerm k rank else 0) + sourceRRFAux k id (rank + 1) cs := by
  by_cases h : c.id = id <;> simp [sourceRRFAux, ranksAux, h]

theorem entryScore_processSource (k : ℕ) (s : String) (id : Int) :
    ∀ (cs : List Candidate) (rank : ℕ) (entries : List FuseEntry),
      entryScore id (processSource k s rank cs entries) =
        entryScore id entries + sourceRRFAux k id rank cs := by
  intro cs
  induction cs with
  | nil => intro rank entries; simp [processSource, sourceRRFAux, ranksAux]
  | cons c cs ih =>
    intro rank entries
    rw [processSource, ih, entryScore_addOccurrence, sourceRRFAux_cons]
    by_cases h : c.id = id
    · simp only [if_pos h]; ring
    · simp only [if_neg h]; ring

theorem entryScore_fuseEntries_general (k : ℕ) (id : Int) :
    ∀ (lists : List (String × List Candidate)) (entries : List FuseEntry),
      entryScore id (lists.foldl (fun es sl => processSource k sl.1 1 sl.2 es) entries) =
        entryScore id entries + (lists.map (fun sl => sourceRRF k id sl.2)).sum := by
  intro lists
  induction lists with
  | nil => intro entries; simp
  | cons sl ls ih =>
    intro entries
    simp only [List.foldl_cons, List.map_cons, List.sum_cons, ih,
      entryScore_processSource]
    show entryScore id entries + sourceRRFAux k id 1 sl.2 + _ = _
    rw [sourceRRF]
    show _ = entryScore id entries + (((ranksAux id 1 sl.2).map (rrfTerm k)).sum + _)
    rw [sourceRRFAux]
    ring

theorem entryScore_fuseEntries (k : ℕ) (id : Int)
    (lists : List (String × List Candidate)) :
    entryScore id (fuseEntries k lists) = totalRRF k lists id := by
  rw [fuseEntries, totalRRF, entryScore_fuseEntries_general]
  simp [entryScore]

theorem dedupSeen_cons (seen : List Int) (x : Int) (xs : List Int) :
    dedupSeen seen (x :: xs) =
      if x ∈ seen then dedupSeen seen xs else x :: dedupSeen (x :: seen) xs := rfl

theorem mem_dedupSeen (y : Int) :
    ∀ (l seen : List Int), y ∈ dedupSeen seen l ↔ y ∈ l ∧ y ∉ seen := by
  intro l
  induction l with
  | nil => intro seen; simp [dedupSeen]
  | cons x xs ih =>
    intro seen
    by_cases hx : x ∈ seen
    · rw [dedupSeen_cons, if_pos hx, ih]
      simp only [List.mem_cons]
      constructor
      · rintro ⟨h1, h2⟩; exact ⟨Or.inr h1, h2⟩
      · rintro ⟨h1 | h1, h2⟩
        · exact absurd (h1 ▸ hx) h2
        · exact ⟨h1, h2⟩
    · rw [dedupSeen_cons, if_neg hx]
      simp only [List.mem_cons, ih]
      by_cases hyx : y = x
      · subst hyx
        simp [hx]
      · constructor
        · rintro (h | ⟨h1, h2⟩)
          · exact absurd h hyx
          · exact ⟨Or.inr h1, fun hc => h2 (Or.inr hc)⟩
        · rintro ⟨h1 | h1, h2⟩
          · exact absurd h1 hyx
          · exact Or.inr ⟨h1, fun hc => hc.elim hyx h2⟩

theorem dedupSeen_congr {seen1 seen2 : List Int}
    (h : ∀ x, x ∈ seen1 ↔ x ∈ seen2) :
    ∀ l : List Int, dedupSeen seen1 l = dedupSeen seen2 l := by
  intro l
  induction l generalizing seen1 seen2 with
  | nil => rfl
  | cons x xs ih =>
    by_cases hx : x ∈ seen1
    · rw [dedupSeen, if_pos hx, dedupSeen, if_pos ((h x).mp hx), ih h]
    · rw [dedupSeen, if_neg hx, dedupSeen, if_neg (fun hc => hx ((h x).mpr hc))]
      congr 1
      exact ih (fun y => by simp [h y])

theorem ids_addOccurrence (k : ℕ) (s : String) (r : ℕ) (c : Candidate)
    (entries : List FuseEntry) :
    (addOccurrence k s r c entries).map FuseEntry.id =
      if c.id ∈ entries.map FuseEntry.id then entries.map FuseEntry.id
      else entries.map FuseEntry.id ++ [c.id] := by
  induction entries with
  | nil => simp [addOccurrence]
  | cons e es ih =>
    by_cases he : e.id = c.id
    · simp [addOccurrence, he]
    · have hne : ¬ c.id = e.id := fun h => he h.symm
      by_cases hc : c.id ∈ es.map FuseEntry.id
      · simp [addOccurrence, he, hne, hc, ih]
      · simp [addOccurrence, he, hne, hc, ih]

theorem ids_processSource (k : ℕ) (s : String) :
    ∀ (cs : List Candidate) (rank : ℕ) (entries : List FuseEntry),
      (processSource k s rank cs entries).map FuseEntry.id =
        entries.map FuseEntry.id ++
          dedupSeen (entries.map FuseEntry.id) (cs.map Candidate.id) := by
  intro cs
  induction cs with
  | nil => intro rank entries; simp [processSource, dedupSeen]
  | cons c cs ih =>
    intro rank entries
    rw [processSource, ih, ids_addOccurrence]
    by_cases hc : c.id ∈ entries.map FuseEntry.id
    · rw [if_pos hc]
      simp only [List.map_cons, dedupSeen, if_pos hc]
    · rw [if_neg hc]
      simp only [List.map_cons, dedupSeen, if_neg hc]
      rw [List.append_assoc]
      congr 1
      rw [List.singleton_append]
      congr 1
      exact dedupSeen_congr (by intro y; simp [or_comm]) _

theorem dedupSeen_append (l1 l2 : List Int) :
    ∀ seen, dedupSeen seen (l1 ++ l2) =
      dedupSeen seen l1 ++ dedupSeen (l1 ++ seen) l2 := by
  induction l1 with
  | nil => intro seen; simp [dedupSeen]
  | cons x xs ih =>
    intro seen
    rw [List.cons_append, dedupSeen_cons, dedupSeen_cons]
    by_cases hx : x ∈ seen
    · rw [if_pos hx, if_pos hx, ih]
      congr 1
      refine dedupSeen_congr ?_ l2
      intro y
      simp only [List.cons_append, List.mem_cons, List.mem_append]
      constructor
      · intro h; tauto
      · rintro (rfl | h)
        · exact Or.inr hx
        · exact h
    · rw [if_neg hx, if_neg hx, ih, List.cons_append, List.cons_append]
      congr 2
      refine dedupSeen_congr ?_ l2
      intro y
      simp only [List.mem_cons, List.mem_append]
      tauto

theorem ids_fuseEntries_general (k : ℕ) :
    ∀ (lists : List (String × List Candidate)) (entries : List FuseEntry),
      (lists.foldl (fun es sl => processSource k sl.1 1 sl.2 es) entries).map FuseEntry.id =
        entries.map FuseEntry.id ++
          dedupSeen (entries.map FuseEntry.id) (allIds lists) := by
  intro lists
  induction lists with
  | nil => intro entries; simp [allIds, dedupSeen]
  | cons sl ls ih =>
    intro entries
    have hall : allIds (sl :: ls) = sl.2.map Candidate.id ++ allIds ls := by
      simp [allIds]
    rw [List.foldl_cons, ih, ids_processSource, hall, dedupSeen_append,
      ← List.append_assoc]
    congr 1
    refine dedupSeen_congr ?_ (allIds ls)
    intro y
    simp only [List.mem_append, mem_dedupSeen]
    tauto

theorem ids_fuseEntries (k : ℕ) (lists : List (String × List Candidate)) :
    (fuseEntries k lists).map FuseEntry.id = dedupSeen [] (allIds lists) := by
  rw [fuseEntries, ids_fuseEntries_general]
  simp

theorem dedupSeen_nodup :
    ∀ (l : List Int) (seen : List Int),
      (dedupSeen seen l).Nodup ∧ ∀ x ∈ dedupSeen seen l, x ∉ seen := by
  intro l
  induction l with
  | nil => intro seen; simp [dedupSeen]
  | cons x xs ih =>
    intro seen
    by_cases hx : x ∈ seen
    · rw [dedupSeen, if_pos hx]; exact ih seen
    · rw [dedupSeen, if_neg hx]
      obtain ⟨hnd, hns⟩ := ih (x :: seen)
      refine ⟨List.nodup_cons.mpr ⟨fun hmem => ?_, hnd⟩, ?_⟩
      · exact (hns x hmem) (List.mem_cons_self x seen)
      · intro y hy
        rcases List.mem_cons.mp hy with h | h
        · exact h ▸ hx
        · exact fun hc => (hns y h) (List.mem_cons_of_mem x hc)

theorem nodup_ids_fuseEntries (k : ℕ) (lists : List (String × List Candidate)) :
    ((fuseEntries k lists).map FuseEntry.id).Nodup := by
  rw [ids_fuseEntries]
  exact (dedupSeen_nodup (allIds lists) []).1

/-- In an accumulator with duplicate-free ids, every entry's stored score is
the looked-up score of its id. -/
theorem score_of_mem {entries : List FuseEntry}
    (hnd : (entries.map FuseEntry.id).Nodup) {e : FuseEntry} (he : e ∈ entries) :
    e.score = entryScore e.id entries := by
  induction entries with
  | nil => cases he
  | cons f fs ih =>
    have hnd' : f.id ∉ fs.map FuseEntry.id ∧ (fs.map FuseEntry.id).Nodup := by
      rw [List.map_cons, List.nodup_cons] at hnd
      exact hnd
    rcases List.mem_cons.mp he with h | h
    · subst h; simp [entryScore]
    · have hmem : e.id ∈ fs.map FuseEntry.id := List.mem_map_of_mem FuseEntry.id h
      have hne : ¬ f.id = e.id := fun hc => hnd'.1 (by rw [hc]; exact hmem)
      rw [entryScore, if_neg hne]
      exact ih hnd'.2 h

/-! ### Stable descending sort lemmas -/

theorem mem_insertDescBy {α : Type} (f : α → ℚ) (x : α) :
    ∀ (l : List α) (y : α), y ∈ insertDescBy f x l ↔ y = x ∨ y ∈ l := by
  intro l
  induction l with
  | nil => intro y; simp [insertDescBy]
  | cons z zs ih =>
    intro y
    rw [insertDescBy]
    by_cases h : f z < f x
    · rw [if_pos h]; simp [List.mem_cons]
    · rw [if_neg h]
      simp only [List.mem_cons, ih]
      tauto

theorem mem_sortDescBy {α : Type} (f : α → ℚ) (l : List α) (y : α) :
    y ∈ sortDescBy f l ↔ y ∈ l := by
  suffices h : ∀ (l : List α) (acc : List α) (y : α),
      y ∈ l.foldl (fun a x => insertDescBy f x a) acc ↔ y ∈ acc ∨ y ∈ l by
    rw [sortDescBy, h]; simp
  intro l
  induction l with
  | nil => intro acc y; simp
  | cons z zs ih =>
    intro acc y
    rw [List.foldl_cons, ih, mem_insertDescBy]
    simp only [List.mem_cons]
    tauto

theorem length_sortDescBy {α : Type} (f : α → ℚ) (l : List α) :
    (sortDescBy f l).length = l.length := by
  have hins : ∀ (x : α) (acc : List α),
      (insertDescBy f x acc).length = acc.length + 1 := by
    intro x acc
    induction acc with
    | nil => rfl
    | cons z zs ih =>
      rw [insertDescBy]
      by_cases h : f z < f x
      · rw [if_pos h]; rfl
      · rw [if_neg h]; simp [ih]
  suffices h : ∀ (l : List α) (acc : List α),
      (l.foldl (fun a x => insertDescBy f x a) acc).length = acc.length + l.length by
    rw [sortDescBy, h]; simp
  intro l
  induction l with
  | nil => intro acc; simp
  | cons z zs ih =>
    intro acc
    rw [List.foldl_cons, ih, hins]
    simp [Nat.add_comm, Nat.add_assoc, Nat.add_left_comm]

theorem sortedDown_insertDescBy {α : Type} (f : α → ℚ) (x : α) :
    ∀ l : List α, SortedDown f l → SortedDown f (insertDescBy f x l) := by
  intro l
  induction l with
  | nil => intro _; simp [insertDescBy, SortedDown]
  | cons z zs ih =>
    intro hs
    rw [insertDescBy]
    rcases List.pairwise_cons.mp hs with ⟨hz, hzs⟩
    by_cases h : f z < f x
    · rw [if_pos h]
      refine List.pairwise_cons.mpr ⟨?_, hs⟩
      intro y hy
      rcases List.mem_cons.mp hy with rfl | hy'
      · exact le_of_lt h
      · exact le_trans (hz y hy') (le_of_lt h)
    · rw [if_neg h]
      refine List.pairwise_cons.mpr ⟨?_, ih hzs⟩
      intro y hy
      rcases (mem_insertDescBy f x zs y).mp hy with rfl | hy'
      · exact le_of_not_lt h
      · exact hz y hy'

theorem sortedDown_sortDescBy {α : Type} (f : α → ℚ) (l : List α) :
    SortedDown f (sortDescBy f l) := by
  suffices h : ∀ (l : List α) (acc : List α),
      SortedDown f acc → SortedDown f (l.foldl (fun a x => insertDescBy f x a) acc) by
    exact h l [] (List.Pairwise.nil)
  intro l
  induction l with
  | nil => intro acc h; exact h
  | cons z zs ih =>
    intro acc h
    exact ih _ (sortedDown_insertDescBy f z acc h)

/-- Stability of the sort: inserting into a sorted accumulator places the new
element after every element of equal `f`-value, so filtering any single
`f`-value class commutes with sorting. -/
theorem filter_insertDescBy {α : Type} (f : α → ℚ) (x : α) (s : ℚ) :
    ∀ l : List α, SortedDown f l →
      (insertDescBy f x l).filter (fun a => f a = s) =
        l.filter (fun a => f a = s) ++ if f x = s then [x] else [] := by
  intro l
  induction l with
  | nil =>
    intro _
    by_cases hxs : f x = s
    · simp [insertDescBy, List.filter, hxs]
    · simp [insertDescBy, List.filter, hxs]
  | cons z zs ih =>
    intro hs
    rcases List.pairwise_cons.mp hs with ⟨hz, hzs⟩
    rw [insertDescBy]
    by_cases h : f z < f x
    · rw [if_pos h]
      by_cases hxs : f x = s
      · -- every element of z :: zs has f-value < f x = s, so the filter
        -- of z :: zs at s is empty
        have hnone : ∀ y ∈ z :: zs, ¬ (f y = s) := by
          intro y hy hc
          have hyx : f y = f x := hc.trans hxs.symm
          rcases List.mem_cons.mp hy with rfl | hy'
          · exact (ne_of_lt h) hyx
          · exact (ne_of_lt (lt_of_le_of_lt (hz y hy') h)) hyx
        rw [List.filter_cons_of_pos (by simp [hxs]),
          List.filter_eq_nil_iff.mpr (by intro y hy; simpa using hnone y hy)]
        simp [hxs]
      · rw [List.filter_cons_of_neg (by simp [hxs])]
        simp [hxs]
    · rw [if_neg h]
      by_cases hzs' : f z = s
      · rw [List.filter_cons_of_pos (by simp [hzs']),
          List.filter_cons_of_pos (by simp [hzs']), ih hzs]
        simp
      · rw [List.filter_cons_of_neg (by simp [hzs']),
          List.filter_cons_of_neg (by simp [hzs']), ih hzs]

theorem filter_sortDescBy {α : Type} (f : α → ℚ) (s : ℚ) (l : List α) :
    (sortDescBy f l).filter (fun a => f a = s) = l.filter (fun a => f a = s) := by
  suffices h : ∀ (l : List α) (acc : List α), SortedDown f acc →
      (l.foldl (fun a x => insertDescBy f x a) acc).filter (fun a => f a = s) =
        acc.filter (fun a => f a = s) ++ l.filter (fun a => f a = s) by
    rw [sortDescBy, h l [] List.Pairwise.nil]; simp
  intro l
  induction l with
  | nil => intro acc _; simp
  | cons z zs ih =>
    intro acc hacc
    rw [List.foldl_cons, ih _ (sortedDown_insertDescBy f z acc hacc),
      filter_insertDescBy f z s acc hacc]
    by_cases hzs' : f z = s
    · rw [List.filter_cons_of_pos (by simp [hzs']), if_pos hzs']
      simp
    · rw [List.filter_cons_of_neg (by simp [hzs']), if_neg hzs']
      simp

/-! ### Positivity of RRF terms and rank bookkeeping -/

theorem rrfTerm_pos (k r : ℕ) (hr : 1 ≤ r) : 0 < rrfTerm k r := by
  rw [rrfTerm]
  apply div_pos one_pos
  have hℕ : 0 < k + r := by omega
  have : ((0 : ℕ) : ℚ) < ((k + r : ℕ) : ℚ) := by exact_mod_cast hℕ
  push_cast at this
  linarith

theorem mem_ranksAux_ge (id : Int) :
    ∀ (rs : List Candidate) (r0 r : ℕ), r ∈ ranksAux id r0 rs → r0 ≤ r := by
  intro rs
  induction rs with
  | nil => intro r0 r h; cases h
  | cons c cs ih =>
    intro r0 r h
    rw [ranksAux] at h
    by_cases hc : c.id = id
    · rw [if_pos hc] at h
      rcases List.mem_cons.mp h with rfl | h'
      · exact le_refl _
      · exact le_trans (Nat.le_succ r0) (ih (r0 + 1) r h')
    · rw [if_neg hc] at h
      exact le_trans (Nat.le_succ r0) (ih (r0 + 1) r h)

theorem mem_ranksOf_one_le (id : Int) (rs : List Candidate) (r : ℕ)
    (h : r ∈ ranksOf id rs) : 1 ≤ r :=
  mem_ranksAux_ge id rs 1 r h

theorem sourceRRF_nonneg (k : ℕ) (id : Int) (rs : List Candidate) :
    0 ≤ sourceRRF k id rs := by
  rw [sourceRRF]
  apply List.sum_nonneg
  intro q hq
  rcases List.mem_map.mp hq with ⟨r, hr, rfl⟩
  exact le_of_lt (rrfTerm_pos k r (mem_ranksOf_one_le id rs r hr))

theorem sourceRRF_pos (k : ℕ) (id : Int) (rs : List Candidate)
    (h : ranksOf id rs ≠ []) : 0 < sourceRRF k id rs := by
  rw [sourceRRF]
  rcases List.exists_cons_of_ne_nil h with ⟨r, rest, hre⟩
  rw [hre, List.map_cons, List.sum_cons]
  have h1 : 0 < rrfTerm k r :=
    rrfTerm_pos k r (mem_ranksOf_one_le id rs r (hre ▸ List.mem_cons_self r rest))
  have h2 : 0 ≤ (rest.map (rrfTerm k)).sum := by
    apply List.sum_nonneg
    intro q hq
    rcases List.mem_map.mp hq with ⟨r', hr', rfl⟩
    have : r' ∈ ranksOf id rs := hre ▸ List.mem_cons_of_mem r hr'
    exact le_of_lt (rrfTerm_pos k r' (mem_ranksOf_one_le id rs r' this))
  linarith

/-- If a document occurs exactly once in a source, at 1-indexed rank `r`,
then that source's contribution to the document is exactly `1/(k+r)`. -/
theorem sourceRRF_single (k : ℕ) (id : Int) (rs : List Candidate) (r : ℕ)
    (h : ranksOf id rs = [r]) : sourceRRF k id rs = rrfTerm k r := by
  rw [sourceRRF, h]
  simp

/-! ### Facts about `fuse` shared by several claims -/

theorem mem_fuse_iff_mem_entries (k : ℕ) (lists : List (String × List Candidate))
    (fr : FusedResult) :
    fr ∈ fuse k lists ↔ ∃ e ∈ fuseEntries k lists, toFusedResult e = fr := by
  rw [fuse]
  constructor
  · intro h
    rcases List.mem_map.mp h with ⟨e, he, rfl⟩
    exact ⟨e, (mem_sortDescBy FuseEntry.score _ e).mp he, rfl⟩
  · rintro ⟨e, he, rfl⟩
    exact List.mem_map.mpr ⟨e, (mem_sortDescBy FuseEntry.score _ e).mpr he, rfl⟩

theorem fuse_score_eq (k : ℕ) (lists : List (String × List Candidate))
    (fr : FusedResult) (h : fr ∈ fuse k lists) :
    fr.score = totalRRF k lists fr.id := by
  rcases (mem_fuse_iff_mem_entries k lists fr).mp h with ⟨e, he, rfl⟩
  show e.score = totalRRF k lists e.id
  rw [score_of_mem (nodup_ids_fuseEntries k lists) he,
    entryScore_fuseEntries]

theorem mem_allIds_iff (lists : List (String × List Candidate)) (id : Int) :
    id ∈ allIds lists ↔ ∃ sl ∈ lists, ∃ c ∈ sl.2, c.id = id := by
  rw [allIds]
  constructor
  · intro h
    rcases List.mem_flatten.mp h with ⟨idl, hidl, hin⟩
    rcases List.mem_map.mp hidl with ⟨sl, hsl, rfl⟩
    rcases List.mem_map.mp hin with ⟨c, hc, rfl⟩
    exact ⟨sl, hsl, c, hc, rfl⟩
  · rintro ⟨sl, hsl, c, hc, rfl⟩
    exact List.mem_flatten.mpr ⟨sl.2.map Candidate.id,
      List.mem_map_of_mem _ hsl, List.mem_map_of_mem _ hc⟩

theorem fuse_id_mem_iff (k : ℕ) (lists : List (String × List Candidate)) (id : Int) :
    (∃ fr ∈ fuse k lists, fr.id = id) ↔ ∃ sl ∈ lists, ∃ c ∈ sl.2, c.id = id := by
  rw [← mem_allIds_iff]
  constructor
  · rintro ⟨fr, hfr, rfl⟩
    rcases (mem_fuse_iff_mem_entries k lists fr).mp hfr with ⟨e, he, rfl⟩
    have : e.id ∈ (fuseEntries k lists).map FuseEntry.id :=
      List.mem_map_of_mem _ he
    rw [ids_fuseEntries] at this
    exact ((mem_dedupSeen e.id (allIds lists) []).mp this).1
  · intro h
    have : id ∈ (fuseEntries k lists).map FuseEntry.id := by
      rw [ids_fuseEntries]
      exact (mem_dedupSeen id (allIds lists) []).mpr ⟨h, by simp⟩
    rcases List.mem_map.mp this with ⟨e, he, rfl⟩
    exact ⟨toFusedResult e, (mem_fuse_iff_mem_entries k lists _).mpr ⟨e, he, rfl⟩, rfl⟩

theorem fuse_sorted (k : ℕ) (lists : List (String × List Candidate)) :
    (fuse k lists).Pairwise (fun a b => b.score ≤ a.score) := by
  rw [fuse]
  have h := sortedDown_sortDescBy FuseEntry.score (fuseEntries k lists)
  exact List.Pairwise.map toFusedResult (fun a b hab => hab) h

/-- C1: in `RRFFusion.fuse`, a document sitting (exactly once) at 1-indexed
rank `r` of a source contributes exactly `1/(k+r)` from that source; every
fused result's total score is the sum of such terms over all sources; the
output contains exactly the ids occurring in some input list (no
minimum-score filtering); the output is sorted by total score descending;
and the default constant is `k = 60`. -/
theorem c1_rrf_score_membership_order (k : ℕ)
    (lists : List (String × List Candidate)) :
    (∀ (rs : List Candidate) (id : Int) (r : ℕ), ranksOf id rs = [r] →
        sourceRRF k id rs = 1 / ((k : ℚ) + (r : ℚ))) ∧
    (∀ fr ∈ fuse k lists, fr.score = totalRRF k lists fr.id) ∧
    (∀ id : Int,
      (∃ fr ∈ fuse k lists, fr.id = id) ↔ ∃ sl ∈ lists, ∃ c ∈ sl.2, c.id = id) ∧
    (fuse k lists).Pairwise (fun a b => b.score ≤ a.score) ∧
    RRF_K = 60 :=
  ⟨fun rs id r h => sourceRRF_single k id rs r h,
   fuse_score_eq k lists,
   fuse_id_mem_iff k lists,
   fuse_sorted k lists,
   rfl⟩

/-- Witness for C1 at Scenario B: document 2 sits at rank 2 of the dense
list and its per-source contribution there is `1/(60+2)`. -/
theorem c1_witness :
    sourceRRF 60 2 [demoCand 1, demoCand 2, demoCand 3] =
      1 / ((60 : ℚ) + (2 : ℚ)) :=
  (c1_rrf_score_membership_order 60 demoLists).1
    [demoCand 1, demoCand 2, demoCand 3] 2 2 (by decide)

/-- C5: RRF fused scores are strictly monotone in the number of contributing
sources.  Comparing two fusion inputs of the same source arity in which a
document keeps identical ranks in every source that ranks it in both, but is
absent from at least one further source in the second input, the document's
total RRF score — and hence its fused score — is strictly higher in the run
where it appears in strictly more sources, because every appearance adds the
strictly positive term `1/(k+r)`. -/
theorem c5_monotone_in_source_count (k : ℕ) (d : Int)
    (lists1 lists2 : List (String × List Candidate))
    (hlen : lists1.length = lists2.length)
    (hranks : ∀ p ∈ lists1.zip lists2,
      ranksOf d p.2.2 = ranksOf d p.1.2 ∨ ranksOf d p.2.2 = [])
    (hfewer : ∃ p ∈ lists1.zip lists2,
      ranksOf d p.1.2 ≠ [] ∧ ranksOf d p.2.2 = []) :
    totalRRF k lists2 d < totalRRF k lists1 d ∧
      ∀ fr1 ∈ fuse k lists1, ∀ fr2 ∈ fuse k lists2,
        fr1.id = d → fr2.id = d → fr2.score < fr1.score := by
  have hmap1 : (lists1.zip lists2).map (fun p => sourceRRF k d p.1.2) =
      lists1.map (fun sl => sourceRRF k d sl.2) := by
    rw [show (fun p : (String × List Candidate) × (String × List Candidate) =>
        sourceRRF k d p.1.2) = (fun sl : String × List Candidate =>
        sourceRRF k d sl.2) ∘ Prod.fst from rfl, ← List.map_map,
      List.map_fst_zip _ _ (le_of_eq hlen)]
  have hmap2 : (lists1.zip lists2).map (fun p => sourceRRF k d p.2.2) =
      lists2.map (fun sl => sourceRRF k d sl.2) := by
    rw [show (fun p : (String × List Candidate) × (String × List Candidate) =>
        sourceRRF k d p.2.2) = (fun sl : String × List Candidate =>
        sourceRRF k d sl.2) ∘ Prod.snd from rfl, ← List.map_map,
      List.map_snd_zip _ _ (le_of_eq hlen.symm)]
  have hlt : totalRRF k lists2 d < totalRRF k lists1 d := by
    rw [totalRRF, totalRRF, ← hmap1, ← hmap2]
    apply List.sum_lt_sum
    · intro p hp
      rcases hranks p hp with h | h
      · exact le_of_eq (by rw [sourceRRF, sourceRRF, h])
      · rw [sourceRRF, h]
        simpa using sourceRRF_nonneg k d p.1.2
    · obtain ⟨p, hp, h1, h2⟩ := hfewer
      refine ⟨p, hp, ?_⟩
      rw [sourceRRF, h2]
      simpa using sourceRRF_pos k d p.1.2 h1
  refine ⟨hlt, ?_⟩
  intro fr1 h1 fr2 h2 e1 e2
  rw [fuse_score_eq k lists1 fr1 h1, fuse_score_eq k lists2 fr2 h2, e1, e2]
  exact hlt

/-- Witness for C5: document 1 scores strictly higher in Scenario B (dense
rank 1 and sparse rank 2) than when the sparse appearance is removed. -/
theorem c5_witness :
    totalRRF 60 demoListsFewer 1 < totalRRF 60 demoLists 1 :=
  (c5_monotone_in_source_count 60 1 demoLists demoListsFewer (by decide)
    (by decide) (by decide)).1

/-- C6: fusion is deterministic — equal inputs give equal outputs — and
ties are broken by insertion order: the accumulator lists ids in
first-source-then-first-rank encounter order, and filtering the fused
output down to any single score value yields exactly the accumulator's
entries with that score, in accumulator (first-encounter) order, because
the sort is stable. -/
theorem c6_deterministic_stable_ties (k : ℕ)
    (lists lists2 : List (String × List Candidate)) (heq : lists = lists2) :
    fuse k lists = fuse k lists2 ∧
    (fuseEntries k lists).map FuseEntry.id = dedupSeen [] (allIds lists) ∧
    ∀ s : ℚ, (fuse k lists).filter (fun fr => fr.score = s) =
      ((fuseEntries k lists).map toFusedResult).filter (fun fr => fr.score = s) := by
  refine ⟨by rw [heq], ids_fuseEntries k lists, ?_⟩
  intro s
  rw [fuse]
  have hcomp : ∀ l : List FuseEntry,
      (l.map toFusedResult).filter (fun fr => fr.score = s) =
        (l.filter (fun e => e.score = s)).map toFusedResult := by
    intro l
    induction l with
    | nil => rfl
    | cons e es ih =>
      by_cases h : e.score = s
      · rw [List.map_cons, List.filter_cons_of_pos (by simpa using h),
          List.filter_cons_of_pos (by simpa using h), List.map_cons, ih]
      · rw [List.map_cons, List.filter_cons_of_neg (by simpa using h),
          List.filter_cons_of_neg (by simpa using h), ih]
  rw [hcomp, hcomp, filter_sortDescBy FuseEntry.score s (fuseEntries k lists)]

/-- Witness for C6 at Scenario B: documents 1 and 2 tie with score
`1/61 + 1/62`, and the tied class of the output is exactly the accumulator
order (document 1 first, having been inserted first). -/
theorem c6_witness :
    (fuse 60 demoLists).filter
        (fun fr => fr.score = 1 / 61 + 1 / 62) =
      ((fuseEntries 60 demoLists).map toFusedResult).filter
        (fun fr => fr.score = 1 / 61 + 1 / 62) :=
  (c6_deterministic_stable_ties 60 demoLists demoLists rfl).2.2 (1 / 61 + 1 / 62)

theorem buildLoop_of_ne_nil (m : ℕ) :
    ∀ (rs : List FusedResult) (parts : List String) (meta : List SegmentMeta)
      (total : ℕ), parts ≠ [] →
      buildLoop m rs parts meta total =
        (parts ++ (takeFit m total rs).map formatPericope,
         meta ++ (takeFit m total rs).map mkSegmentMeta) := by
  intro rs
  induction rs with
  | nil => intro parts meta total _; simp [buildLoop, takeFit]
  | cons r rs ih =>
    intro parts meta total hne
    rw [buildLoop, takeFit]
    by_cases hc : total + (formatPericope r).length > m
    · rw [if_pos ⟨hc, hne⟩, if_pos hc]
      simp
    · rw [if_neg (fun hand => hc hand.1), if_neg hc,
        ih _ _ _ (by simp)]
      simp

theorem buildLoop_start (m : ℕ) (r : FusedResult) (rs : List FusedResult) :
    buildLoop m (r :: rs) [] [] 0 =
      ((r :: takeFit m (formatPericope r).length rs).map formatPericope,
       (r :: takeFit m (formatPericope r).length rs).map mkSegmentMeta) := by
  rw [buildLoop]
  rw [if_neg (fun hand => hand.2 rfl)]
  rw [show ([] : List String) ++ [formatPericope r] = [formatPericope r] from rfl,
    show ([] : List SegmentMeta) ++ [mkSegmentMeta r] = [mkSegmentMeta r] from rfl,
    buildLoop_of_ne_nil m rs [formatPericope r] [mkSegmentMeta r]
      (0 + (formatPericope r).length) (by simp)]
  simp

theorem takeFit_is_take (m : ℕ) :
    ∀ (rs : List FusedResult) (total : ℕ),
      ∃ j, takeFit m total rs = rs.take j ∧ j ≤ rs.length := by
  intro rs
  induction rs with
  | nil => intro total; exact ⟨0, rfl, le_refl 0⟩
  | cons r rs ih =>
    intro total
    rw [takeFit]
    by_cases hc : total + (formatPericope r).length > m
    · exact ⟨0, by rw [if_pos hc]; rfl, Nat.zero_le _⟩
    · obtain ⟨j, hj, hjl⟩ := ih (total + (formatPericope r).length)
      exact ⟨j + 1, by rw [if_neg hc, hj]; rfl, by simpa using Nat.succ_le_succ hjl⟩

theorem takeFit_budget (m : ℕ) :
    ∀ (rs : List FusedResult) (total : ℕ), total ≤ m →
      total + sumLens ((takeFit m total rs).map formatPericope) ≤ m := by
  intro rs
  induction rs with
  | nil =>
    intro total h
    simp only [takeFit, List.map_nil, sumLens, List.sum_nil]
    omega
  | cons r rs ih =>
    intro total h
    rw [takeFit]
    by_cases hc : total + (formatPericope r).length > m
    · rw [if_pos hc]
      simp only [List.map_nil, sumLens, List.sum_nil]
      omega
    · rw [if_neg hc]
      have h' := ih (total + (formatPericope r).length) (le_of_not_lt hc)
      simp only [List.map_cons, sumLens, List.sum_cons] at h' ⊢
      omega

theorem joinParts_length :
    ∀ parts : List String, parts ≠ [] →
      (joinParts parts).length + 7 = sumLens parts + 7 * parts.length := by
  intro parts
  induction parts with
  | nil => intro h; exact absurd rfl h
  | cons p ps ih =>
    intro _
    match ps, ih with
    | [], _ => simp [joinParts, sumLens]
    | q :: qs, ih =>
      have hrec := ih (by simp)
      show (p ++ contextSep ++ joinParts (q :: qs)).length + 7 = _
      rw [String.length_append, String.length_append]
      have hsep : contextSep.length = 7 := rfl
      simp only [sumLens, List.map_cons, List.sum_cons, List.length_cons] at hrec ⊢
      omega

/-- Counterexample to C2 as stated: with `max_tokens = 22` (character
budget `⌊22·1.5⌋ = 33`) and two 16-character segments, both fit the
running total (32 ≤ 33) and are included, but the produced context string
is 39 characters long — the `"\n\n---\n\n"` delimiter is not counted
against the budget — while the first segment alone (16 chars) does not
exceed the bound. -/
theorem c2_counterexample :
    ¬ (2 * (build_with_metadata 22 [cexSeg 1, cexSeg 2]).1.length ≤ 3 * 22 ∨
       3 * 22 < 2 * (formatPericope (cexSeg 1)).length) := by
  decide

/-- C2 amended: the included segments are always a non-empty contiguous
prefix, in fused order, of the input list, each included atomically, with
parallel metadata; the **sum of the segment lengths** (the running total
the code compares against the budget, which excludes the 7-character
delimiters) stays within `⌊max_tokens·1.5⌋` except when the first segment
alone exceeds that bound, in which case exactly the first segment is
included; the context string itself is the delimiter-join of the prefix,
so its length is the segment-length sum plus `7·(n−1)`. -/
theorem c2_amended_context_budget (maxTokens : ℕ) (results : List FusedResult)
    (hne : results ≠ []) :
    ∃ n, 1 ≤ n ∧ n ≤ results.length ∧
      (buildLoop (3 * maxTokens / 2) results [] [] 0).1 =
        (results.take n).map formatPericope ∧
      (buildLoop (3 * maxTokens / 2) results [] [] 0).2 =
        (results.take n).map mkSegmentMeta ∧
      (build_with_metadata maxTokens results).1 =
        joinParts ((results.take n).map formatPericope) ∧
      (build_with_metadata maxTokens results).1.length + 7 =
        sumLens ((results.take n).map formatPericope) + 7 * n ∧
      (sumLens ((results.take n).map formatPericope) ≤ 3 * maxTokens / 2 ∨
        (n = 1 ∧ 3 * maxTokens / 2 < (formatPericope (results.head hne)).length)) := by
  match results, hne with
  | r :: rs, _ =>
    obtain ⟨j, hj, hjl⟩ := takeFit_is_take (3 * maxTokens / 2) rs
      (formatPericope r).length
    refine ⟨j + 1, Nat.succ_le_succ (Nat.zero_le j),
      by simp only [List.length_cons]; omega,
      ?_, ?_, ?_, ?_, ?_⟩
    · rw [buildLoop_start, hj]
      rfl
    · rw [buildLoop_start, hj]
      rfl
    · rw [build_with_metadata, if_neg (by simp), buildLoop_start, hj]
      rfl
    · rw [build_with_metadata, if_neg (by simp), buildLoop_start, hj]
      show (joinParts ((r :: rs.take j).map formatPericope)).length + 7 = _
      rw [joinParts_length _ (by simp)]
      have htl : (rs.take j).length = j := by
        rw [List.length_take]; omega
      rw [List.take_succ_cons]
      simp only [List.map_cons, List.length_cons, List.length_map, htl]
    · by_cases hL : (formatPericope r).length ≤ 3 * maxTokens / 2
      · left
        have hb := takeFit_budget (3 * maxTokens / 2) rs
          (formatPericope r).length hL
        rw [hj] at hb
        show sumLens ((r :: rs.take j).map formatPericope) ≤ _
        simp only [List.map_cons, sumLens, List.sum_cons] at hb ⊢
        omega
      · right
        have hj0 : rs.take j = [] := by
          rw [← hj]
          cases rs with
          | nil => rfl
          | cons r' rs' =>
            rw [takeFit, if_pos (by omega)]
        constructor
        · -- j must be 0: the prefix after the first segment is empty
          cases j with
          | zero => rfl
          | succ j' =>
            exfalso
            cases rs with
            | nil => simp at hjl
            | cons r' rs' => simp [List.take] at hj0
        · show 3 * maxTokens / 2 < (formatPericope r).length
          omega

/-- Witness for the amended C2 at the counterexample input. -/
theorem c2_amended_witness :
    ∃ n, 1 ≤ n ∧ n ≤ ([cexSeg 1, cexSeg 2] : List FusedResult).length ∧
      (buildLoop (3 * 22 / 2) [cexSeg 1, cexSeg 2] [] [] 0).1 =
        (([cexSeg 1, cexSeg 2] : List FusedResult).take n).map formatPericope ∧
      (buildLoop (3 * 22 / 2) [cexSeg 1, cexSeg 2] [] [] 0).2 =
        (([cexSeg 1, cexSeg 2] : List FusedResult).take n).map mkSegmentMeta ∧
      (build_with_metadata 22 [cexSeg 1, cexSeg 2]).1 =
        joinParts ((([cexSeg 1, cexSeg 2] : List FusedResult).take n).map formatPericope) ∧
      (build_with_metadata 22 [cexSeg 1, cexSeg 2]).1.length + 7 =
        sumLens ((([cexSeg 1, cexSeg 2] : List FusedResult).take n).map formatPericope) + 7 * n ∧
      (sumLens ((([cexSeg 1, cexSeg 2] : List FusedResult).take n).map formatPericope) ≤ 3 * 22 / 2 ∨
        (n = 1 ∧ 3 * 22 / 2 <
          (formatPericope (([cexSeg 1, cexSeg 2] : List FusedResult).head (by simp))).length)) :=
  c2_amended_context_budget 22 [cexSeg 1, cexSeg 2] (by simp)

/-! ### Lemmas about the general graph strategy -/

theorem dedupById_sublist :
    ∀ (l : List GCand) (seen : List Int), List.Sublist (dedupById seen l) l := by
  intro l
  induction l with
  | nil => intro seen; simp [dedupById]
  | cons r rs ih =>
    intro seen
    rw [dedupById]
    by_cases hr : r.cand.id ∈ seen
    · rw [if_pos hr]; exact (ih seen).cons r
    · rw [if_neg hr]; exact (ih _).cons₂ r

theorem dedupById_not_seen :
    ∀ (l : List GCand) (seen : List Int),
      ∀ y ∈ dedupById seen l, y.cand.id ∉ seen := by
  intro l
  induction l with
  | nil => intro seen y hy; cases hy
  | cons r rs ih =>
    intro seen y hy
    rw [dedupById] at hy
    by_cases hr : r.cand.id ∈ seen
    · rw [if_pos hr] at hy
      exact ih seen y hy
    · rw [if_neg hr] at hy
      rcases List.mem_cons.mp hy with rfl | hy'
      · exact hr
      · exact fun hc => ih _ y hy' (List.mem_cons_of_mem _ hc)

theorem dedupById_ids_nodup :
    ∀ (l : List GCand) (seen : List Int),
      ((dedupById seen l).map (fun g => g.cand.id)).Nodup := by
  intro l
  induction l with
  | nil => intro seen; simp [dedupById]
  | cons r rs ih =>
    intro seen
    rw [dedupById]
    by_cases hr : r.cand.id ∈ seen
    · rw [if_pos hr]; exact ih seen
    · rw [if_neg hr, List.map_cons, List.nodup_cons]
      refine ⟨?_, ih _⟩
      intro hc
      rcases List.mem_map.mp hc with ⟨y, hy, hid⟩
      exact dedupById_not_seen rs _ y hy (hid ▸ List.mem_cons_self _ _)

theorem dedupById_keep_max :
    ∀ (l : List GCand) (seen : List Int),
      l.Pairwise (fun a b => b.cand.score ≤ a.cand.score) →
      ∀ y ∈ dedupById seen l, ∀ x ∈ l,
        x.cand.id = y.cand.id → x.cand.score ≤ y.cand.score := by
  intro l
  induction l with
  | nil => intro seen _ y hy; cases hy
  | cons r rs ih =>
    intro seen hs y hy x hx hid
    rcases List.pairwise_cons.mp hs with ⟨hr, hrs⟩
    rw [dedupById] at hy
    by_cases hseen : r.cand.id ∈ seen
    · rw [if_pos hseen] at hy
      rcases List.mem_cons.mp hx with rfl | hx'
      · exact absurd (hid ▸ hseen) (dedupById_not_seen rs seen y hy)
      · exact ih seen hrs y hy x hx' hid
    · rw [if_neg hseen] at hy
      rcases List.mem_cons.mp hy with rfl | hy'
      · rcases List.mem_cons.mp hx with rfl | hx'
        · exact le_refl _
        · exact hr x hx'
      · rcases List.mem_cons.mp hx with rfl | hx'
        · exact absurd (hid ▸ List.mem_cons_self _ _)
            (dedupById_not_seen rs _ y hy')
        · exact ih _ hrs y hy' x hx' hid

/-- Counterexample to C4 as stated: `_retrieve_general` does not give each
scoped strategy an even split `k/3`; it passes `max(top_k // 3, 5)`.  With
`top_k = 3` and an instrumenting person strategy that records the `k` it
receives, the code passes 5 where the claim predicts `3/3 = 1`. -/
theorem c4_counterexample :
    retrieveGeneral probeFn nilFn nilFn ["x"] 3 ≠
        retrieveGeneralEvenSplit probeFn nilFn nilFn ["x"] 3 ∧
      (retrieveGeneral probeFn nilFn nilFn ["x"] 3).map (fun g => g.cand.id) =
        [(5 : Int)] ∧
      (retrieveGeneralEvenSplit probeFn nilFn nilFn ["x"] 3).map
        (fun g => g.cand.id) = [(1 : Int)] := by
  decide

/-- C4 amended: the general strategy runs the three scoped strategies each
with `max(⌊k/3⌋, 5)` (an even split floored at five, not `k/3`), merges
their results, deduplicates by pericope id keeping the highest score for
each id, and truncates the merged list — sorted by score descending — to
`k` results. -/
theorem c4_amended_general_strategy (p t e : List String → ℕ → List GCand)
    (kw : List String) (k : ℕ) :
    retrieveGeneral p t e kw k =
      (dedupById [] (sortDescBy (fun g => g.cand.score)
        (p kw (max (k / 3) 5) ++ t kw (max (k / 3) 5) ++
          e kw (max (k / 3) 5)))).take k ∧
    (retrieveGeneral p t e kw k).length ≤ k ∧
    ((retrieveGeneral p t e kw k).map (fun g => g.cand.id)).Nodup ∧
    (∀ y ∈ retrieveGeneral p t e kw k,
      y ∈ p kw (max (k / 3) 5) ++ t kw (max (k / 3) 5) ++ e kw (max (k / 3) 5)) ∧
    (∀ y ∈ retrieveGeneral p t e kw k,
      ∀ x ∈ p kw (max (k / 3) 5) ++ t kw (max (k / 3) 5) ++ e kw (max (k / 3) 5),
        x.cand.id = y.cand.id → x.cand.score ≤ y.cand.score) ∧
    (retrieveGeneral p t e kw k).Pairwise
      (fun a b => b.cand.score ≤ a.cand.score) := by
  set m := max (k / 3) 5 with hm
  set merged := p kw m ++ t kw m ++ e kw m with hmerged
  set sorted := sortDescBy (fun g => g.cand.score) merged with hsorted
  have hout : retrieveGeneral p t e kw k = (dedupById [] sorted).take k := rfl
  have hsortDown : SortedDown (fun g => g.cand.score) sorted := by
    rw [hsorted]
    exact sortedDown_sortDescBy (fun g => g.cand.score) merged
  have hsortPW : sorted.Pairwise (fun a b => b.cand.score ≤ a.cand.score) :=
    hsortDown
  refine ⟨hout, ?_, ?_, ?_, ?_, ?_⟩
  · rw [hout]; exact List.length_take_le k _
  · rw [hout]
    exact List.Nodup.sublist ((List.take_sublist k _).map _)
      (dedupById_ids_nodup sorted [])
  · intro y hy
    rw [hout] at hy
    have h1 : y ∈ dedupById [] sorted := List.mem_of_mem_take hy
    have h2 : y ∈ sorted := (dedupById_sublist sorted []).subset h1
    exact (mem_sortDescBy (fun g => g.cand.score) merged y).mp h2
  · intro y hy x hx hid
    rw [hout] at hy
    have h1 : y ∈ dedupById [] sorted := List.mem_of_mem_take hy
    have h2 : x ∈ sorted := (mem_sortDescBy (fun g => g.cand.score) merged x).mpr hx
    exact dedupById_keep_max sorted [] hsortPW y h1 x h2 hid
  · rw [hout]
    exact (hsortPW.sublist (dedupById_sublist sorted [])).sublist
      (List.take_sublist k _)

/-- Witness for the amended C4 at the instrumented input. -/
theorem c4_amended_witness :
    (retrieveGeneral probeFn nilFn nilFn ["x"] 3).length ≤ 3 :=
  (c4_amended_general_strategy probeFn nilFn nilFn ["x"] 3).2.1

/-! ### Pipeline lemmas -/

theorem fuse_ne_nil (k : ℕ) (lists : List (String × List Candidate))
    (h1 : lists ≠ []) (h2 : ∀ sl ∈ lists, sl.2 ≠ []) : fuse k lists ≠ [] := by
  rcases List.exists_cons_of_ne_nil h1 with ⟨sl, rest, rfl⟩
  have hsl2 : sl.2 ≠ [] := h2 sl (List.mem_cons_self sl rest)
  rcases List.exists_mem_of_ne_nil sl.2 hsl2 with ⟨c, hc⟩
  have := (fuse_id_mem_iff k (sl :: rest) c.id).mpr
    ⟨sl, List.mem_cons_self sl rest, c, hc, rfl⟩
  rcases this with ⟨fr, hfr, _⟩
  exact List.ne_nil_of_mem hfr

theorem mkResultLists_sources_ne_nil (d s : List Candidate) (g : List GCand) :
    ∀ sl ∈ mkResultLists d s g, sl.2 ≠ [] := by
  intro sl hsl
  rw [mkResultLists] at hsl
  rcases List.mem_append.mp hsl with h | h
  · rcases List.mem_append.mp h with h' | h'
    · by_cases hd : d ≠ []
      · rw [if_pos hd] at h'
        rcases List.mem_singleton.mp h' with rfl
        exact hd
      · rw [if_neg hd] at h'; cases h'
    · by_cases hs : s ≠ []
      · rw [if_pos hs] at h'
        rcases List.mem_singleton.mp h' with rfl
        exact hs
      · rw [if_neg hs] at h'; cases h'
  · by_cases hg : g ≠ []
    · rw [if_pos hg] at h
      rcases List.mem_singleton.mp h with rfl
      show g.map GCand.cand ≠ []
      simpa using hg
    · rw [if_neg hg] at h; cases h

theorem mkResultLists_eq_nil (d s : List Candidate) (g : List GCand)
    (h : mkResultLists d s g = []) : d = [] ∧ s = [] ∧ g = [] := by
  rw [mkResultLists] at h
  by_cases hd : d ≠ []
  · rw [if_pos hd] at h; simp at h
  · by_cases hs : s ≠ []
    · rw [if_neg hd, if_pos hs] at h; simp at h
    · by_cases hg : g ≠ []
      · rw [if_neg hd, if_neg hs, if_pos hg] at h; simp at h
      · push_neg at hd hs hg
        exact ⟨hd, hs, hg⟩

theorem graph_not_mem_mkUsed (d s : List Candidate) :
    "graph" ∉ mkUsed d s [] := by
  rw [mkUsed]
  intro h
  rw [if_neg (by simp : ¬ (([] : List GCand) ≠ []))] at h
  rcases List.mem_append.mp h with h' | h'
  · rcases List.mem_append.mp h' with h'' | h''
    · by_cases hd : d ≠ []
      · rw [if_pos hd] at h''
        exact absurd (List.mem_singleton.mp h'') (by decide)
      · rw [if_neg hd] at h''; cases h''
    · by_cases hs : s ≠ []
      · rw [if_pos hs] at h''
        exact absurd (List.mem_singleton.mp h'') (by decide)
      · rw [if_neg hs] at h''; cases h''
  · cases h'

/-- C3: a request that leaves `options.include_graph` unspecified behaves
exactly as `include_graph = false`: the Pydantic schema default is `False`
and the endpoint always passes the option explicitly, so the pipeline's
graph guard is off, the graph retriever is never invoked (no entity
extraction either), and only the dense and sparse sources reach fusion. -/
theorem c3_include_graph_default_off (env : PipelineEnv) (query mode : String)
    (mr : Option ℕ) :
    endpointRun env query mode ⟨mr, none⟩ =
        endpointRun env query mode ⟨mr, some false⟩ ∧
      (endpointRun env query mode ⟨mr, none⟩).graphInvoked = false ∧
      (endpointRun env query mode ⟨mr, none⟩).extractCalls = 0 ∧
      ∀ sl ∈ (endpointRun env query mode ⟨mr, none⟩).fusionInputs,
        sl.1 = "dense" ∨ sl.1 = "sparse" := by
  refine ⟨rfl, rfl, rfl, ?_⟩
  intro sl hsl
  have hsl' : sl ∈ mkResultLists (pipeDense env) (pipeSparse env) [] := hsl
  rw [mkResultLists, if_neg (by simp : ¬ (([] : List GCand) ≠ [])),
    List.append_nil] at hsl'
  rcases List.mem_append.mp hsl' with h | h
  · by_cases hd : pipeDense env ≠ []
    · rw [if_pos hd] at h
      rcases List.mem_singleton.mp h with rfl
      exact Or.inl rfl
    · rw [if_neg hd] at h; cases h
  · by_cases hs : pipeSparse env ≠ []
    · rw [if_pos hs] at h
      rcases List.mem_singleton.mp h with rfl
      exact Or.inr rfl
    · rw [if_neg hs] at h; cases h

/-- Witness for C3 at the demo environment. -/
theorem c3_witness :
    endpointRun demoEnv "q" "auto" ⟨none, none⟩ =
      endpointRun demoEnv "q" "auto" ⟨none, some false⟩ :=
  (c3_include_graph_default_off demoEnv "q" "auto" none).1

/-- C7: whenever the truncated fused list is empty (with the schema's
`max_results ≥ 1` in force), no answer-generation call is made, the answer
is the fixed apology string, and both the segments list and the
`used_retrievers` list are empty. -/
theorem c7_empty_fused_apology (env : PipelineEnv) (query mode : String)
    (opts : PipelineOptions)
    (hmr : 1 ≤ opts.maxResultsOpt.getD TOP_K_PERICOPES)
    (hempty : (execute env query mode opts).fusedTruncated = []) :
    (execute env query mode opts).answer = apology ∧
      (execute env query mode opts).segments = [] ∧
      (execute env query mode opts).usedRetrievers = [] ∧
      (execute env query mode opts).generateCalls = 0 := by
  have hft : pipeFusedTrunc env query mode opts = [] := hempty
  have hrl : pipeResultLists env query mode opts = [] := by
    by_contra hno
    rw [pipeFusedTrunc, if_neg hno] at hft
    rcases List.take_eq_nil_iff.mp hft with h | h
    · omega
    · exact fuse_ne_nil RRF_K (pipeResultLists env query mode opts) hno
        (mkResultLists_sources_ne_nil _ _ _) h
  obtain ⟨hd0, hs0, hg0⟩ := mkResultLists_eq_nil _ _ _ hrl
  have hne : ¬ (pipeFusedTrunc env query mode opts ≠ []) := fun hc => hc hft
  refine ⟨?_, ?_, ?_, ?_⟩
  · show (if pipeFusedTrunc env query mode opts ≠ [] then
        env.generateFn query
          (build_with_metadata MAX_CONTEXT_TOKENS
            (pipeFusedTrunc env query mode opts)).1
          (pipeQueryType env mode)
      else apology) = apology
    rw [if_neg hne]
  · show (pipeFusedTrunc env query mode opts).map mkSegment = []
    rw [hft, List.map_nil]
  · show mkUsed (pipeDense env) (pipeSparse env)
      (pipeGraphPair env query mode opts).1 = []
    rw [mkUsed, hd0, hs0, hg0]
    simp
  · show (if pipeFusedTrunc env query mode opts ≠ [] then 1 else 0) = 0
    rw [if_neg hne]

/-- Witness for C7: with every source empty the pipeline answers with the
apology and reports no retrievers. -/
theorem c7_witness :
    (execute emptyEnv "q" "auto" ⟨none, none⟩).answer = apology ∧
      (execute emptyEnv "q" "auto" ⟨none, none⟩).segments = [] ∧
      (execute emptyEnv "q" "auto" ⟨none, none⟩).usedRetrievers = [] ∧
      (execute emptyEnv "q" "auto" ⟨none, none⟩).generateCalls = 0 :=
  c7_empty_fused_apology emptyEnv "q" "auto" ⟨none, none⟩ (by decide) rfl

/-- C8: when the requested mode is not `auto`, the classification LLM
prompt is never invoked and the classification tag used by the pipeline
and reported in the response metadata is exactly the uppercased mode. -/
theorem c8_explicit_mode_skips_classification (env : PipelineEnv)
    (query mode : String) (opts : PipelineOptions) (h : mode ≠ "auto") :
    (execute env query mode opts).classifyCalls = 0 ∧
      (execute env query mode opts).queryType = pyUpper mode := by
  constructor
  · show pipeClassifyCalls mode = 0
    rw [pipeClassifyCalls, if_neg h]
  · show pipeQueryType env mode = pyUpper mode
    rw [pipeQueryType, if_neg h]

/-- Witness for C8 (Scenario D): `mode="person"` makes zero classification
calls and the tag is `"PERSON"`. -/
theorem c8_witness :
    (execute demoEnv "q" "person" ⟨none, none⟩).classifyCalls = 0 ∧
      (execute demoEnv "q" "person" ⟨none, none⟩).queryType = "PERSON" := by
  have h := c8_explicit_mode_skips_classification demoEnv "q" "person"
    ⟨none, none⟩ (by decide)
  exact ⟨h.1, h.2.trans (by decide)⟩

/-- C9: with the graph backend unreachable, a pipeline run is identical to
the same run with `include_graph = false`; `used_retrievers` excludes
`"graph"`; and the graph retriever returns empty immediately, attempting
no entity extraction (zero extraction calls) and no traversal. -/
theorem c9_graph_unreachable_equiv (env : PipelineEnv) (query mode : String)
    (opts : PipelineOptions) (h : env.graphAvailable = false) :
    execute env query mode opts =
        execute env query mode ⟨opts.maxResultsOpt, some false⟩ ∧
      "graph" ∉ (execute env query mode opts).usedRetrievers ∧
      ∀ qt k, graphRetrieve env query qt k = ([], 0) := by
  have hgp : ∀ o' : PipelineOptions, pipeGraphPair env query mode o' = ([], 0) := by
    intro o'
    rw [pipeGraphPair, pipeGraphOn, h, Bool.and_false]
    simp
  have hgo : ∀ o' : PipelineOptions, pipeGraphOn env o' = false := by
    intro o'
    rw [pipeGraphOn, h, Bool.and_false]
  refine ⟨?_, ?_, ?_⟩
  · have hrl : pipeResultLists env query mode opts =
        pipeResultLists env query mode ⟨opts.maxResultsOpt, some false⟩ := by
      rw [pipeResultLists, pipeResultLists, hgp, hgp]
    have hft : pipeFusedTrunc env query mode opts =
        pipeFusedTrunc env query mode ⟨opts.maxResultsOpt, some false⟩ := by
      rw [pipeFusedTrunc, pipeFusedTrunc, hrl]
    simp only [execute, hgp, hgo, hrl, hft]
  · show "graph" ∉ mkUsed (pipeDense env) (pipeSparse env)
      (pipeGraphPair env query mode opts).1
    rw [hgp]
    exact graph_not_mem_mkUsed _ _
  · intro qt k
    rw [graphRetrieve, h]
    simp

/-- Witness for C9 at the demo environment (whose graph backend is down). -/
theorem c9_witness :
    execute demoEnv "q" "auto" ⟨none, none⟩ =
        execute demoEnv "q" "auto" ⟨none, some false⟩ ∧
      "graph" ∉ (execute demoEnv "q" "auto" ⟨none, none⟩).usedRetrievers :=
  ⟨(c9_graph_unreachable_equiv demoEnv "q" "auto" ⟨none, none⟩ rfl).1,
   (c9_graph_unreachable_equiv demoEnv "q" "auto" ⟨none, none⟩ rfl).2.1⟩

/-- C10: for an explicit mode (`person`, `topic`, `event`) the
classification tag handed to the graph retriever is the uppercased mode,
which matches none of the three scoped-strategy tags
(`PERSON_QUESTION`, `TOPIC_QUESTION`, `EVENT_QUESTION`), so
`GraphRetriever.retrieve` always falls through to the general strategy and
never runs the mode's scoped traversal. -/
theorem c10_explicit_mode_dispatches_general (env : PipelineEnv)
    (query mode : String) (k : ℕ)
    (h : mode = "person" ∨ mode = "topic" ∨ mode = "event") :
    pyUpper mode ≠ "PERSON_QUESTION" ∧
      pyUpper mode ≠ "TOPIC_QUESTION" ∧
      pyUpper mode ≠ "EVENT_QUESTION" ∧
      (∀ opts, (execute env query mode opts).queryType = pyUpper mode) ∧
      graphRetrieve env query (pyUpper mode) k =
        (if env.graphAvailable then
          (if (extractEntities env query).1 = [] then
            ([], (extractEntities env query).2)
           else
            (retrieveGeneral env.personFn env.topicFn env.eventFn
              (extractEntities env query).1 k,
             (extractEntities env query).2))
         else ([], 0)) := by
  have hmode : mode ≠ "auto" := by
    rcases h with rfl | rfl | rfl <;> decide
  have h1 : pyUpper mode ≠ "PERSON_QUESTION" := by
    rcases h with rfl | rfl | rfl <;> decide
  have h2 : pyUpper mode ≠ "TOPIC_QUESTION" := by
    rcases h with rfl | rfl | rfl <;> decide
  have h3 : pyUpper mode ≠ "EVENT_QUESTION" := by
    rcases h with rfl | rfl | rfl <;> decide
  refine ⟨h1, h2, h3, ?_, ?_⟩
  · intro opts
    show pipeQueryType env mode = pyUpper mode
    rw [pipeQueryType, if_neg hmode]
  · simp only [graphRetrieve, if_neg h1, if_neg h2, if_neg h3]

/-- Witness for C10 at `mode = "person"`: the tag is `"PERSON"`, which is
not `"PERSON_QUESTION"`. -/
theorem c10_witness :
    pyUpper "person" ≠ "PERSON_QUESTION" ∧ pyUpper "person" = "PERSON" :=
  ⟨(c10_explicit_mode_dispatches_general demoEnv "q" "person" 4
      (Or.inl rfl)).1, by decide⟩

end BibleRAG
